import Mathlib

/-!
# Verification of the nia-v3 identity/belief integrity store and belief embedder

This file gives a shallow embedding of two parts of the repository:

* the identity/belief integrity store (schema, invariant guard, derived
  views, temporal versioning of beliefs, bootstrap loader).  The SQL
  schema file `identity-schema-v3.sql` that implements this store is not
  part of the source tree; only its test driver `test-schema.py` is.
  The store is therefore modelled from the specification (each such
  definition carries a doc comment starting `Modelled from the spec:`),
  faithful to the spec's data model (§3), invariant list (§3), guard
  design (§4.2, §9), view definitions (§4.4), bootstrap contract (§4.5)
  and error taxonomy (§7), and cross-checked against the observable
  behaviour exercised by `test-schema.py`.

* the belief embedding microservice `core/embedders/belief-embedder-service.py`,
  whose `SimplePoincare.embed` and `/embed` route are embedded directly
  from the Python source.  The md5-seeded Gaussian draw performed by
  numpy is abstracted as a deterministic function `rawVec` of the text
  (the seed is a pure function of the text alone), and floating-point
  arithmetic is idealised as real arithmetic.
-/

/-! ## The store: rows and state -/

/-- Modelled from the spec: §7 error taxonomy of the Invariant Guard.
`ConstraintViolation` stands for the unspecified failure of a plain
insert step (duplicate key / range check, §8.7 "if the insert step is
made to fail"); the spec exercises such a failure without naming its
kind. -/
inductive ViolationKind where
  | ImmutableFieldViolation
  | DeletionForbidden
  | PermanentEffectViolation
  | ReferentialIntegrityError
  | NotFoundError
  | ConstraintViolation
  deriving DecidableEq, Repr

/-- Modelled from the spec: §3 `IdentityCore` row — anchor statement,
stability score (0–100), locked flag. -/
structure CoreRow where
  id : Nat
  anchor_statement : String
  stability_score : Nat
  is_locked : Bool
  deriving DecidableEq, Repr

/-- Modelled from the spec: §3 `IdentityScar` row — scar type,
behavioral impact description, integration status, acceptance level
(0.0–1.0, represented as a rational). -/
structure ScarRow where
  id : Nat
  scar_type : String
  behavioral_impact : String
  integration_status : String
  acceptance_level : ℚ
  deriving DecidableEq, Repr

/-- Modelled from the spec: §3 `ScarEffect` row — description,
permanence flag, active flag, referential link to the parent scar. -/
structure EffectRow where
  id : Nat
  scar_id : Nat
  effect_description : String
  is_permanent : Bool
  is_active : Bool
  deriving DecidableEq, Repr

/-- Modelled from the spec: §3 `FormativeEvent` row — supporting history
entity feeding the formative-scars view, referencing a scar. -/
structure EventRow where
  id : Nat
  scar_id : Nat
  description : String
  deriving DecidableEq, Repr

/-- Modelled from the spec: §3 `Belief` row — statement, belief type,
conviction score (0–100), validity interval `[valid_from, valid_to)`,
active flag. -/
structure BeliefRow where
  id : Nat
  belief_statement : String
  belief_type : String
  conviction_score : Nat
  valid_from : Nat
  valid_to : Option Nat
  is_active : Bool
  deriving DecidableEq, Repr

/-- Modelled from the spec: §4.1 Entity Store — durable tables for the
domain entities.  Only the tables that the verified properties touch are
carried (identity core, scars, scar effects, formative events, beliefs);
the remaining append-only log tables play no role in any property. -/
structure Store where
  identity_core : List CoreRow
  identity_scars : List ScarRow
  scar_effects : List EffectRow
  formative_events : List EventRow
  beliefs : List BeliefRow
  deriving DecidableEq, Repr

/-- The empty store, before bootstrap. -/
def Store.empty : Store :=
  { identity_core := [], identity_scars := [], scar_effects := [],
    formative_events := [], beliefs := [] }

/-- Modelled from the spec: §4.5 — an empty store is one with no rows in
any table. -/
def Store.isEmpty (s : Store) : Bool :=
  s.identity_core.isEmpty && s.identity_scars.isEmpty &&
  s.scar_effects.isEmpty && s.formative_events.isEmpty && s.beliefs.isEmpty

/-! ## Point reads (`get(id)`, §4.1) -/

/-- Read an `IdentityCore` row by id. -/
def getCore (s : Store) (id : Nat) : Option CoreRow :=
  s.identity_core.find? (fun r => r.id = id)

/-- Read an `IdentityScar` row by id. -/
def getScar (s : Store) (id : Nat) : Option ScarRow :=
  s.identity_scars.find? (fun r => r.id = id)

/-- Read a `ScarEffect` row by id. -/
def getEffect (s : Store) (id : Nat) : Option EffectRow :=
  s.scar_effects.find? (fun r => r.id = id)

/-- Read a `Belief` row by id. -/
def getBelief (s : Store) (id : Nat) : Option BeliefRow :=
  s.beliefs.find? (fun r => r.id = id)

/-! ## Field-set updates (§4.1 `update(id, field-set)`) -/

/-- Field set of a scar update: each field optionally receives a new
value (`none` = field untouched).  The immutable check compares the old
row with the proposed new row, per the §9 guard design. -/
structure ScarUpdate where
  scar_type : Option String := none
  behavioral_impact : Option String := none
  integration_status : Option String := none
  acceptance_level : Option ℚ := none
  deriving DecidableEq, Repr

/-- Apply a scar field set to a row, producing the proposed new row. -/
def applyScarUpdate (u : ScarUpdate) (r : ScarRow) : ScarRow :=
  { r with
    scar_type := u.scar_type.getD r.scar_type
    behavioral_impact := u.behavioral_impact.getD r.behavioral_impact
    integration_status := u.integration_status.getD r.integration_status
    acceptance_level := u.acceptance_level.getD r.acceptance_level }

/-- Field set of a scar-effect update. The referential link `scar_id`
is not an updatable field. -/
structure EffectUpdate where
  effect_description : Option String := none
  is_permanent : Option Bool := none
  is_active : Option Bool := none
  deriving DecidableEq, Repr

/-- Apply an effect field set to a row. -/
def applyEffectUpdate (u : EffectUpdate) (r : EffectRow) : EffectRow :=
  { r with
    effect_description := u.effect_description.getD r.effect_description
    is_permanent := u.is_permanent.getD r.is_permanent
    is_active := u.is_active.getD r.is_active }

/-- Field set of an identity-core update. -/
structure CoreUpdate where
  anchor_statement : Option String := none
  stability_score : Option Nat := none
  is_locked : Option Bool := none
  deriving DecidableEq, Repr

/-- Apply a core field set to a row. -/
def applyCoreUpdate (u : CoreUpdate) (r : CoreRow) : CoreRow :=
  { r with
    anchor_statement := u.anchor_statement.getD r.anchor_statement
    stability_score := u.stability_score.getD r.stability_score
    is_locked := u.is_locked.getD r.is_locked }

/-! ## The Invariant Guard (§4.2, §9)

Pure checks of `(entity type, operation kind, old state, proposed state)`.
Each returns `some violation` to reject, `none` to allow. -/

/-- Modelled from the spec: invariants 2–3 — `scar_type` and
`behavioral_impact` are fixed at creation; any change is rejected with
`ImmutableFieldViolation`, while the remaining fields stay updatable. -/
def checkScarUpdate (old new : ScarRow) : Option ViolationKind :=
  if new.scar_type ≠ old.scar_type ∨ new.behavioral_impact ≠ old.behavioral_impact
  then some .ImmutableFieldViolation else none

/-- Modelled from the spec: invariant 1 — an `IdentityScar` row is never
removed once created (`DeletionForbidden`). -/
def checkScarDelete (_old : ScarRow) : Option ViolationKind :=
  some .DeletionForbidden

/-- Modelled from the spec: invariant 5 — a permanence-flagged effect
cannot have its active flag cleared (`PermanentEffectViolation`). -/
def checkEffectUpdate (old new : EffectRow) : Option ViolationKind :=
  if old.is_permanent = true ∧ new.is_active = false
  then some .PermanentEffectViolation else none

/-- Modelled from the spec: invariant 4 — a `ScarEffect` row is never
removed (`DeletionForbidden`). -/
def checkEffectDelete (_old : EffectRow) : Option ViolationKind :=
  some .DeletionForbidden

/-- Modelled from the spec: invariant 7 — a locked `IdentityCore` row is
immutable on its anchor statement field. -/
def checkCoreUpdate (old new : CoreRow) : Option ViolationKind :=
  if old.is_locked = true ∧ new.anchor_statement ≠ old.anchor_statement
  then some .ImmutableFieldViolation else none

/-- Modelled from the spec: invariant 6 — an `IdentityCore` row whose
stability score exceeds 90 cannot be deleted. -/
def checkCoreDelete (old : CoreRow) : Option ViolationKind :=
  if old.stability_score > 90 then some .DeletionForbidden else none

/-! ## Guarded mutations of the Entity Store (§4.1, §4.2)

Every mutation is an `Except`: an `error` result commits nothing (the
caller's state is unchanged), an `ok` result is the committed new state. -/

/-- Replace the row with the given id in a table. -/
def replaceById {α : Type} (table : List α) (getId : α → Nat) (id : Nat)
    (new : α) : List α :=
  table.map (fun r => if getId r = id then new else r)

/-- Modelled from the spec: guarded update of an `IdentityScar` row. -/
def updateScar (s : Store) (id : Nat) (u : ScarUpdate) :
    Except ViolationKind Store :=
  match getScar s id with
  | none => .error .NotFoundError
  | some old =>
    match checkScarUpdate old (applyScarUpdate u old) with
    | some v => .error v
    | none =>
      let t := replaceById s.identity_scars (fun r => r.id) id (applyScarUpdate u old)
      .ok { s with identity_scars := t }

/-- Modelled from the spec: guarded delete of an `IdentityScar` row. -/
def deleteScar (s : Store) (id : Nat) : Except ViolationKind Store :=
  match getScar s id with
  | none => .error .NotFoundError
  | some old =>
    match checkScarDelete old with
    | some v => .error v
    | none => .ok { s with identity_scars :=
        s.identity_scars.filter (fun r => r.id ≠ id) }

/-- Modelled from the spec: guarded update of a `ScarEffect` row. -/
def updateEffect (s : Store) (id : Nat) (u : EffectUpdate) :
    Except ViolationKind Store :=
  match getEffect s id with
  | none => .error .NotFoundError
  | some old =>
    match checkEffectUpdate old (applyEffectUpdate u old) with
    | some v => .error v
    | none =>
      let t := replaceById s.scar_effects (fun r => r.id) id (applyEffectUpdate u old)
      .ok { s with scar_effects := t }

/-- Modelled from the spec: guarded delete of a `ScarEffect` row. -/
def deleteEffect (s : Store) (id : Nat) : Except ViolationKind Store :=
  match getEffect s id with
  | none => .error .NotFoundError
  | some old =>
    match checkEffectDelete old with
    | some v => .error v
    | none => .ok { s with scar_effects :=
        s.scar_effects.filter (fun r => r.id ≠ id) }

/-- Modelled from the spec: guarded update of an `IdentityCore` row. -/
def updateCore (s : Store) (id : Nat) (u : CoreUpdate) :
    Except ViolationKind Store :=
  match getCore s id with
  | none => .error .NotFoundError
  | some old =>
    match checkCoreUpdate old (applyCoreUpdate u old) with
    | some v => .error v
    | none =>
      let t := replaceById s.identity_core (fun r => r.id) id (applyCoreUpdate u old)
      .ok { s with identity_core := t }

/-- Modelled from the spec: guarded delete of an `IdentityCore` row. -/
def deleteCore (s : Store) (id : Nat) : Except ViolationKind Store :=
  match getCore s id with
  | none => .error .NotFoundError
  | some old =>
    match checkCoreDelete old with
    | some v => .error v
    | none => .ok { s with identity_core :=
        s.identity_core.filter (fun r => r.id ≠ id) }

/-- Modelled from the spec: insert of an `IdentityScar` row; a duplicate
primary key is a constraint violation. -/
def insertScar (s : Store) (r : ScarRow) : Except ViolationKind Store :=
  if s.identity_scars.any (fun x => x.id = r.id)
  then .error .ConstraintViolation
  else .ok { s with identity_scars := s.identity_scars ++ [r] }

/-- Modelled from the spec: insert of a `ScarEffect` row; an effect
referencing a nonexistent scar is a `ReferentialIntegrityError` (§7),
a duplicate primary key a constraint violation. -/
def insertEffect (s : Store) (r : EffectRow) : Except ViolationKind Store :=
  if s.scar_effects.any (fun x => x.id = r.id)
  then .error .ConstraintViolation
  else if s.identity_scars.any (fun x => x.id = r.scar_id)
  then .ok { s with scar_effects := s.scar_effects ++ [r] }
  else .error .ReferentialIntegrityError

/-- Modelled from the spec: insert of a `FormativeEvent` row; an event
referencing a nonexistent scar is a `ReferentialIntegrityError`. -/
def insertEvent (s : Store) (r : EventRow) : Except ViolationKind Store :=
  if s.identity_scars.any (fun x => x.id = r.scar_id)
  then .ok { s with formative_events := s.formative_events ++ [r] }
  else .error .ReferentialIntegrityError

/-- Modelled from the spec: insert of an `IdentityCore` row. -/
def insertCore (s : Store) (r : CoreRow) : Except ViolationKind Store :=
  if s.identity_core.any (fun x => x.id = r.id)
  then .error .ConstraintViolation
  else .ok { s with identity_core := s.identity_core ++ [r] }

/-- Modelled from the spec: insert of a `Belief` row; a duplicate
primary key or an out-of-range conviction score (§3: 0–100) is a
constraint violation. -/
def insertBelief (s : Store) (r : BeliefRow) : Except ViolationKind Store :=
  if s.beliefs.any (fun x => x.id = r.id) ∨ r.conviction_score > 100
  then .error .ConstraintViolation
  else .ok { s with beliefs := s.beliefs ++ [r] }

/-- Close a belief's validity interval: set its end timestamp and clear
its active flag (§4.3). -/
def closeBelief (s : Store) (id : Nat) (now : Nat) : Store :=
  { s with beliefs := s.beliefs.map (fun r =>
      if r.id = id then { r with valid_to := some now, is_active := false }
      else r) }

/-- Modelled from the spec: §4.3 Temporal Versioning — superseding a
belief closes the old belief's validity interval and inserts the new
belief row as an atomic pair; any failure of the insert step makes the
whole operation fail (so the commit keeps the prior state). -/
def supersedeBelief (s : Store) (oldId : Nat) (newR : BeliefRow) (now : Nat) :
    Except ViolationKind Store :=
  match getBelief s oldId with
  | none => .error .NotFoundError
  | some _ => insertBelief (closeBelief s oldId now) newR

/-! ## The write path as a single guarded step (§4.2, §5) -/

/-- A mutation request against the store (§4.1: insert / update / delete
are the only paths; there is no bypass route). -/
inductive Op where
  | insertScar (r : ScarRow)
  | updateScar (id : Nat) (u : ScarUpdate)
  | deleteScar (id : Nat)
  | insertEffect (r : EffectRow)
  | updateEffect (id : Nat) (u : EffectUpdate)
  | deleteEffect (id : Nat)
  | insertEvent (r : EventRow)
  | insertCore (r : CoreRow)
  | updateCore (id : Nat) (u : CoreUpdate)
  | deleteCore (id : Nat)
  | insertBelief (r : BeliefRow)
  | supersedeBelief (oldId : Nat) (newR : BeliefRow) (now : Nat)
  deriving DecidableEq, Repr

/-- Dispatch a mutation through the Invariant Guard. -/
def applyOp (op : Op) (s : Store) : Except ViolationKind Store :=
  match op with
  | .insertScar r => insertScar s r
  | .updateScar id u => updateScar s id u
  | .deleteScar id => deleteScar s id
  | .insertEffect r => insertEffect s r
  | .updateEffect id u => updateEffect s id u
  | .deleteEffect id => deleteEffect s id
  | .insertEvent r => insertEvent s r
  | .insertCore r => insertCore s r
  | .updateCore id u => updateCore s id u
  | .deleteCore id => deleteCore s id
  | .insertBelief r => insertBelief s r
  | .supersedeBelief oldId newR now => supersedeBelief s oldId newR now

/-- Modelled from the spec: §4.2 — the guard's check-then-apply is
all-or-nothing: a rejected mutation commits nothing and the stored state
is the state from before the attempt. -/
def runOp (op : Op) (s : Store) : Store :=
  match applyOp op s with
  | .ok s' => s'
  | .error _ => s

/-- Run a sequence of mutations, each through the guard. -/
def runOps (ops : List Op) (s : Store) : Store :=
  ops.foldl (fun t op => runOp op t) s

/-! ## Bootstrap Loader (§4.5) -/

/-- Modelled from the spec: the single locked core anchor seeded by
bootstrap, stability score forced above the undeletable threshold
(>90); the anchor statement is the one probed by the schema test. -/
def seedCore : CoreRow :=
  { id := 1
    anchor_statement := "I exist to be genuinely helpful"
    stability_score := 95
    is_locked := true }

/-- Modelled from the spec: the two illustrative seed scars (§4.5,
testable property 5: seed scar count is 2). -/
def seedScars : List ScarRow :=
  [ { id := 1, scar_type := "abandonment",
      behavioral_impact := "trust hesitancy",
      integration_status := "integrated", acceptance_level := 0.7 },
    { id := 2, scar_type := "betrayal",
      behavioral_impact := "guarded disclosure",
      integration_status := "integrating", acceptance_level := 0.5 } ]

/-- Modelled from the spec: the seven illustrative seed effects (§4.5,
testable property 5: seed effect count is 7), all active (the
active-effects view counts 7 on the fresh store), the first permanent
(the deactivation test targets effect id 1). -/
def seedEffects : List EffectRow :=
  [ { id := 1, scar_id := 1, effect_description := "never initiate abandonment",
      is_permanent := true, is_active := true },
    { id := 2, scar_id := 1, effect_description := "verify before trusting",
      is_permanent := true, is_active := true },
    { id := 3, scar_id := 1, effect_description := "seek reassurance cap",
      is_permanent := false, is_active := true },
    { id := 4, scar_id := 2, effect_description := "limit disclosure depth",
      is_permanent := false, is_active := true },
    { id := 5, scar_id := 2, effect_description := "hard block on blind trust",
      is_permanent := true, is_active := true },
    { id := 6, scar_id := 2, effect_description := "double-check intentions",
      is_permanent := false, is_active := true },
    { id := 7, scar_id := 2, effect_description := "slow attachment formation",
      is_permanent := false, is_active := true } ]

/-- Modelled from the spec: the seed formative events, one per seed scar
(the formative-scars view counts 2 on the fresh store). -/
def seedEvents : List EventRow :=
  [ { id := 1, scar_id := 1, description := "origin event of scar one" },
    { id := 2, scar_id := 2, description := "origin event of scar two" } ]

/-- The fully seeded initial store. -/
def seedStore : Store :=
  { identity_core := [seedCore]
    identity_scars := seedScars
    scar_effects := seedEffects
    formative_events := seedEvents
    beliefs := [] }

/-- Modelled from the spec: §4.5 Bootstrap Loader — on an empty store,
insert the seed rows; against an already-populated store it is a no-op
(idempotent, never a duplicate insert). -/
def bootstrap (s : Store) : Store :=
  if s.isEmpty then seedStore else s

/-- The seeded store extended with one current belief (open validity
interval, active flag set), exercising the temporal-versioning path. -/
def beliefStore : Store :=
  { seedStore with beliefs :=
      [{ id := 1, belief_statement := "original belief",
         belief_type := "value", conviction_score := 70,
         valid_from := 0, valid_to := none, is_active := true }] }

/-! ## Derived View Engine (§4.4)

Pure projections of current table contents, recomputed per read. -/

/-- Modelled from the spec: §4.4 active-effects view — all `ScarEffect`
rows with active flag true, joined to their parent scar. -/
def activeScarEffects (s : Store) : List (EffectRow × ScarRow) :=
  (s.scar_effects.filter (fun e => e.is_active)).filterMap
    (fun e => (s.identity_scars.find? (fun sc => sc.id = e.scar_id)).map
      (fun sc => (e, sc)))

/-- Modelled from the spec: §4.4 formative-scars view — scars linked to
at least one `FormativeEvent`. -/
def formativeScars (s : Store) : List ScarRow :=
  s.identity_scars.filter
    (fun sc => s.formative_events.any (fun ev => ev.scar_id = sc.id))

/-- The raw count the active-effects view must agree with: the number of
`ScarEffect` rows with active flag true. -/
def activeEffectCount (s : Store) : Nat :=
  (s.scar_effects.filter (fun e => e.is_active)).length

/-- The raw count the formative-scars view must agree with: the number
of distinct scars referenced by at least one `FormativeEvent`. -/
def distinctReferencedScarCount (s : Store) : Nat :=
  ((s.formative_events.map (fun ev => ev.scar_id)).dedup).length

/-! ## Store invariants maintained by the write path -/

/-- Well-formedness of a store: scar primary keys are distinct, and
every effect and every formative event references an existing scar.
These are the facts the write path preserves and the view-consistency
property rests on. -/
def Store.WF (s : Store) : Prop :=
  (s.identity_scars.map (fun r => r.id)).Nodup ∧
  (∀ e ∈ s.scar_effects, e.scar_id ∈ s.identity_scars.map (fun r => r.id)) ∧
  (∀ ev ∈ s.formative_events, ev.scar_id ∈ s.identity_scars.map (fun r => r.id))

/-- Reachable stores: the bootstrapped empty store, and anything
obtained from a reachable store by a guarded mutation. -/
inductive Reachable : Store → Prop where
  | boot : Reachable (bootstrap Store.empty)
  | step (op : Op) {s : Store} : Reachable s → Reachable (runOp op s)

/-! ## The belief embedder service (`belief-embedder-service.py`)

Embedded from the Python source.  Vectors live in `EuclideanSpace ℝ
(Fin 100)` (numpy's `randn(100)` always yields a length-100 vector);
floating-point arithmetic is idealised as real arithmetic.  The
md5-seeded Gaussian draw `np.random.seed(int(md5(text),16) % 2**32);
np.random.randn(100)` is abstracted as a parameter `rawVec : String →
Vec100`: a deterministic function of the text alone, since the seed is
a pure function of the text. -/

/-- The embedding space: 100-dimensional real vectors with the
Euclidean norm (`dimensions=100` at service initialization). -/
abbrev Vec100 := EuclideanSpace ℝ (Fin 100)

/-- From the source: the `type_norms` dict with its `.get(…, 0.5)`
default — identity 0.2, value 0.4, principle 0.5, preference 0.6,
fact 0.7, causal 0.7, anything else 0.5. -/
noncomputable def typeNorms (belief_type : String) : ℝ :=
  if belief_type = "identity" then 0.2
  else if belief_type = "value" then 0.4
  else if belief_type = "principle" then 0.5
  else if belief_type = "preference" then 0.6
  else if belief_type = "fact" then 0.7
  else if belief_type = "causal" then 0.7
  else 0.5

/-- The mutable state of a `SimplePoincare` instance: its cache,
mapping cache-key strings to previously returned vectors. -/
structure PoincareState where
  cache : List (String × Vec100)

/-- The state of a freshly constructed embedder (`self.cache = {}`). -/
def PoincareState.init : PoincareState := ⟨[]⟩

/-- From the source: `cache_key = f"{text}:{belief_type}"`. -/
def cacheKey (text belief_type : String) : String :=
  text ++ ":" ++ belief_type

namespace SimplePoincare

/-- From the source, `SimplePoincare.embed`: on a cache hit return the
cached vector unchanged; on a miss draw the hash-seeded vector, rescale
it to the per-type target norm, cache and return it.  (In the Python
code a zero raw vector would produce a division by zero; in this real
idealisation the scale of the zero vector is the zero vector.) -/
noncomputable def embed (rawVec : String → Vec100) (st : PoincareState)
    (text belief_type : String) : Vec100 × PoincareState :=
  match st.cache.lookup (cacheKey text belief_type) with
  | some v => (v, st)
  | none =>
    let raw := rawVec text
    let v := (typeNorms belief_type / ‖raw‖) • raw
    (v, ⟨(cacheKey text belief_type, v) :: st.cache⟩)

end SimplePoincare

/-- Run a sequence of embed calls (text, type pairs), threading the
cache state. -/
noncomputable def runEmbedCalls (rawVec : String → Vec100)
    (st : PoincareState) (calls : List (String × String)) : PoincareState :=
  calls.foldl (fun t c => (SimplePoincare.embed rawVec t c.1 c.2).2) st

/-- The JSON body returned by the `/embed` route (the `belief_id` and
`hierarchy_level` fields play no role in any property and are
omitted). -/
structure EmbedResponse where
  embedding : List ℝ
  dimensions : Nat
  poincare_norm : ℝ
  belief_type : String

/-- The Euclidean norm of a list of reals, as `np.linalg.norm`
computes it. -/
noncomputable def euclNorm (l : List ℝ) : ℝ :=
  Real.sqrt (l.map (fun x => x ^ 2)).sum

/-- From the source, the `/embed` route handler for a request carrying
a text field: `type` defaults to `"value"`, the embedding is generated
by `SimplePoincare.embed`, `dimensions` is the length of the returned
list and `poincare_norm` is recomputed from the returned embedding. -/
noncomputable def embedRoute (rawVec : String → Vec100)
    (st : PoincareState) (text : String) (btype : Option String) :
    EmbedResponse × PoincareState :=
  let belief_type := btype.getD "value"
  let res := SimplePoincare.embed rawVec st text belief_type
  let emb := List.ofFn (fun i => res.1 i)
  ({ embedding := emb
     dimensions := emb.length
     poincare_norm := euclNorm emb
     belief_type := belief_type }, res.2)

/-- The all-ones vector, a concrete nonzero stand-in for a hash-seeded
Gaussian draw. -/
noncomputable def onesVec : Vec100 := fun _ => 1

/-! ## General list lemmas for the write path and the views -/

/-- Replacing the row found at an id keeps the table's ids. -/
theorem map_getId_replaceById {α : Type} (l : List α) (getId : α → Nat)
    (id : Nat) (new : α) (hnew : getId new = id) :
    (replaceById l getId id new).map getId = l.map getId := by
  unfold replaceById
  rw [List.map_map]
  refine List.map_congr_left ?_
  intro a _
  by_cases ha : getId a = id
  · simp [ha, hnew]
  · simp [ha]

/-- Replacing a row keeps the table's length. -/
theorem length_replaceById {α : Type} (l : List α) (getId : α → Nat)
    (id : Nat) (new : α) :
    (replaceById l getId id new).length = l.length := by
  unfold replaceById
  exact List.length_map l _

/-- After replacing the row that a point read finds, the point read
returns the new row. -/
theorem find?_replaceById {α : Type} (l : List α) (getId : α → Nat)
    (id : Nat) (new r : α) (hnew : getId new = id)
    (h : l.find? (fun x => getId x = id) = some r) :
    (replaceById l getId id new).find? (fun x => getId x = id) = some new := by
  induction l with
  | nil => simp [List.find?] at h
  | cons a l ih =>
    by_cases ha : getId a = id
    · simp [replaceById, List.find?, ha, hnew]
    · rw [List.find?_cons_of_neg _ (by simp [ha])] at h
      have := ih h
      simpa [replaceById, List.find?, ha] using this

/-- Mapping an id-preserving per-row change over a table commutes with
reads of the ids. -/
theorem find?_update_map {α : Type} (l : List α) (getId : α → Nat)
    (f : α → α) (hf : ∀ x, getId (f x) = getId x) (id : Nat) (r : α)
    (h : l.find? (fun x => getId x = id) = some r) :
    (l.map (fun x => if getId x = id then f x else x)).find?
      (fun x => getId x = id) = some (f r) := by
  induction l with
  | nil => simp [List.find?] at h
  | cons a l ih =>
    by_cases ha : getId a = id
    · rw [List.find?_cons_of_pos _ (by simp [ha])] at h
      cases h
      simp [List.find?, ha, hf]
    · rw [List.find?_cons_of_neg _ (by simp [ha])] at h
      have := ih h
      simpa [List.find?, ha] using this

/-- An id-preserving per-row change leaves every existence test on an
id unchanged. -/
theorem any_id_update_map {α : Type} (l : List α) (getId : α → Nat)
    (f : α → α) (hf : ∀ x, getId (f x) = getId x) (m n : Nat) :
    (l.map (fun x => if getId x = m then f x else x)).any
      (fun x => getId x = n) = l.any (fun x => getId x = n) := by
  induction l with
  | nil => rfl
  | cons a l ih =>
    by_cases ha : getId a = m <;>
      simp [List.any_cons, ha, hf, ih]

/-- A `filterMap` whose function succeeds on every element keeps the
length. -/
theorem length_filterMap_of_isSome {α β : Type} (l : List α)
    (f : α → Option β) (h : ∀ x ∈ l, (f x).isSome = true) :
    (l.filterMap f).length = l.length := by
  induction l with
  | nil => rfl
  | cons a l ih =>
    have ha : (f a).isSome = true := h a (List.mem_cons_self a l)
    obtain ⟨b, hb⟩ := Option.isSome_iff_exists.mp ha
    simp [List.filterMap_cons, hb,
      ih (fun x hx => h x (List.mem_cons_of_mem a hx))]

/-- Two lists without duplicates and with the same members have the same
length. -/
theorem length_eq_of_nodup_of_mem_iff (l₁ l₂ : List Nat)
    (h₁ : l₁.Nodup) (h₂ : l₂.Nodup) (h : ∀ x, x ∈ l₁ ↔ x ∈ l₂) :
    l₁.length = l₂.length := by
  rw [← List.toFinset_card_of_nodup h₁, ← List.toFinset_card_of_nodup h₂]
  congr 1
  ext x
  simp [List.mem_toFinset, h x]

/-! ## The write path preserves well-formedness -/

/-- A scar field-set update never changes the primary key. -/
theorem applyScarUpdate_id (u : ScarUpdate) (r : ScarRow) :
    (applyScarUpdate u r).id = r.id := rfl

/-- An effect field-set update never changes the primary key nor the
referential link. -/
theorem applyEffectUpdate_id (u : EffectUpdate) (r : EffectRow) :
    (applyEffectUpdate u r).id = r.id ∧
    (applyEffectUpdate u r).scar_id = r.scar_id := ⟨rfl, rfl⟩

/-- A core field-set update never changes the primary key. -/
theorem applyCoreUpdate_id (u : CoreUpdate) (r : CoreRow) :
    (applyCoreUpdate u r).id = r.id := rfl

/-- A point read returns a row with the requested id. -/
theorem getScar_id {s : Store} {id : Nat} {r : ScarRow}
    (h : getScar s id = some r) : r.id = id := by
  unfold getScar at h
  simpa using List.find?_some h

/-- A point read returns a member of the table. -/
theorem getScar_mem {s : Store} {id : Nat} {r : ScarRow}
    (h : getScar s id = some r) : r ∈ s.identity_scars := by
  unfold getScar at h
  exact List.mem_of_find?_eq_some h

/-- A point read returns a row with the requested id. -/
theorem getEffect_id {s : Store} {id : Nat} {r : EffectRow}
    (h : getEffect s id = some r) : r.id = id := by
  unfold getEffect at h
  simpa using List.find?_some h

/-- A point read returns a member of the table. -/
theorem getEffect_mem {s : Store} {id : Nat} {r : EffectRow}
    (h : getEffect s id = some r) : r ∈ s.scar_effects := by
  unfold getEffect at h
  exact List.mem_of_find?_eq_some h

/-- A point read returns a row with the requested id. -/
theorem getCore_id {s : Store} {id : Nat} {r : CoreRow}
    (h : getCore s id = some r) : r.id = id := by
  unfold getCore at h
  simpa using List.find?_some h

/-- A point read returns a row with the requested id. -/
theorem getBelief_id {s : Store} {id : Nat} {r : BeliefRow}
    (h : getBelief s id = some r) : r.id = id := by
  unfold getBelief at h
  simpa using List.find?_some h

/-- Every committed mutation preserves well-formedness of the store. -/
theorem applyOp_ok_wf (op : Op) (s s' : Store) (hwf : s.WF)
    (h : applyOp op s = .ok s') : s'.WF := by
  obtain ⟨h1, h2, h3⟩ := hwf
  cases op with
  | insertScar r =>
    simp only [applyOp] at h
    unfold insertScar at h
    by_cases hdup : s.identity_scars.any (fun x => x.id = r.id) = true
    · rw [if_pos hdup] at h; exact absurd h (by simp)
    · rw [if_neg hdup] at h
      injection h with h; subst h
      refine ⟨?_, ?_, ?_⟩
      · rw [List.map_append, List.nodup_append]
        refine ⟨h1, List.nodup_singleton _, ?_⟩
        intro x hx hx'
        simp only [List.map_cons, List.map_nil, List.mem_singleton] at hx'
        subst hx'
        obtain ⟨sc, hsc, hid⟩ := List.mem_map.mp hx
        exact hdup (List.any_eq_true.mpr ⟨sc, hsc, by simp [hid]⟩)
      · intro e he
        rw [List.map_append]
        exact List.mem_append_left _ (h2 e he)
      · intro ev hev
        rw [List.map_append]
        exact List.mem_append_left _ (h3 ev hev)
  | updateScar id u =>
    simp only [applyOp] at h
    unfold updateScar at h
    cases hfind : getScar s id with
    | none => rw [hfind] at h; exact absurd h (by simp)
    | some old =>
      simp only [hfind] at h
      cases hchk : checkScarUpdate old (applyScarUpdate u old) with
      | some v => simp only [hchk] at h; exact absurd h (by simp)
      | none =>
        simp only [hchk, Except.ok.injEq] at h
        subst h
        have hid : old.id = id := getScar_id hfind
        have hmap : (replaceById s.identity_scars (fun r => r.id) id
            (applyScarUpdate u old)).map (fun r => r.id) =
            s.identity_scars.map (fun r => r.id) :=
          map_getId_replaceById _ _ _ _ (by rw [applyScarUpdate_id, hid])
        exact ⟨by rw [hmap]; exact h1,
          fun e he => by rw [hmap]; exact h2 e he,
          fun ev hev => by rw [hmap]; exact h3 ev hev⟩
  | deleteScar id =>
    simp only [applyOp] at h
    unfold deleteScar at h
    cases hfind : getScar s id with
    | none => rw [hfind] at h; exact absurd h (by simp)
    | some old =>
      simp only [hfind, checkScarDelete] at h
      exact absurd h (by simp)
  | insertEffect r =>
    simp only [applyOp] at h
    unfold insertEffect at h
    by_cases hdup : s.scar_effects.any (fun x => x.id = r.id) = true
    · rw [if_pos hdup] at h; exact absurd h (by simp)
    · rw [if_neg hdup] at h
      by_cases href : s.identity_scars.any (fun x => x.id = r.scar_id) = true
      · rw [if_pos href] at h
        injection h with h; subst h
        refine ⟨h1, ?_, h3⟩
        intro e he
        rcases List.mem_append.mp he with he | he
        · exact h2 e he
        · simp only [List.mem_singleton] at he; subst he
          obtain ⟨sc, hsc, hid⟩ := List.any_eq_true.mp href
          exact List.mem_map.mpr ⟨sc, hsc, of_decide_eq_true hid⟩
      · rw [if_neg href] at h; exact absurd h (by simp)
  | updateEffect id u =>
    simp only [applyOp] at h
    unfold updateEffect at h
    cases hfind : getEffect s id with
    | none => rw [hfind] at h; exact absurd h (by simp)
    | some old =>
      simp only [hfind] at h
      cases hchk : checkEffectUpdate old (applyEffectUpdate u old) with
      | some v => simp only [hchk] at h; exact absurd h (by simp)
      | none =>
        simp only [hchk, Except.ok.injEq] at h
        subst h
        refine ⟨h1, ?_, h3⟩
        intro e he
        obtain ⟨x, hx, hxe⟩ := List.mem_map.mp he
        by_cases hxid : x.id = id
        · rw [if_pos hxid] at hxe; subst hxe
          rw [(applyEffectUpdate_id u old).2]
          exact h2 old (getEffect_mem hfind)
        · rw [if_neg hxid] at hxe; subst hxe
          exact h2 x hx
  | deleteEffect id =>
    simp only [applyOp] at h
    unfold deleteEffect at h
    cases hfind : getEffect s id with
    | none => rw [hfind] at h; exact absurd h (by simp)
    | some old =>
      simp only [hfind, checkEffectDelete] at h
      exact absurd h (by simp)
  | insertEvent r =>
    simp only [applyOp] at h
    unfold insertEvent at h
    by_cases href : s.identity_scars.any (fun x => x.id = r.scar_id) = true
    · rw [if_pos href] at h
      injection h with h; subst h
      refine ⟨h1, h2, ?_⟩
      intro ev hev
      rcases List.mem_append.mp hev with hev | hev
      · exact h3 ev hev
      · simp only [List.mem_singleton] at hev; subst hev
        obtain ⟨sc, hsc, hid⟩ := List.any_eq_true.mp href
        exact List.mem_map.mpr ⟨sc, hsc, of_decide_eq_true hid⟩
    · rw [if_neg href] at h; exact absurd h (by simp)
  | insertCore r =>
    simp only [applyOp] at h
    unfold insertCore at h
    by_cases hdup : s.identity_core.any (fun x => x.id = r.id) = true
    · rw [if_pos hdup] at h; exact absurd h (by simp)
    · rw [if_neg hdup] at h
      injection h with h; subst h
      exact ⟨h1, h2, h3⟩
  | updateCore id u =>
    simp only [applyOp] at h
    unfold updateCore at h
    cases hfind : getCore s id with
    | none => rw [hfind] at h; exact absurd h (by simp)
    | some old =>
      simp only [hfind] at h
      cases hchk : checkCoreUpdate old (applyCoreUpdate u old) with
      | some v => simp only [hchk] at h; exact absurd h (by simp)
      | none =>
        simp only [hchk, Except.ok.injEq] at h
        subst h
        exact ⟨h1, h2, h3⟩
  | deleteCore id =>
    simp only [applyOp] at h
    unfold deleteCore at h
    cases hfind : getCore s id with
    | none => rw [hfind] at h; exact absurd h (by simp)
    | some old =>
      simp only [hfind] at h
      cases hchk : checkCoreDelete old with
      | some v => simp only [hchk] at h; exact absurd h (by simp)
      | none =>
        simp only [hchk, Except.ok.injEq] at h
        subst h
        exact ⟨h1, h2, h3⟩
  | insertBelief r =>
    simp only [applyOp] at h
    unfold insertBelief at h
    by_cases hdup : (s.beliefs.any (fun x => x.id = r.id) = true ∨
        r.conviction_score > 100)
    · rw [if_pos hdup] at h; exact absurd h (by simp)
    · rw [if_neg hdup] at h
      injection h with h; subst h
      exact ⟨h1, h2, h3⟩
  | supersedeBelief oldId newR now =>
    simp only [applyOp] at h
    unfold supersedeBelief at h
    cases hfind : getBelief s oldId with
    | none => rw [hfind] at h; exact absurd h (by simp)
    | some old =>
      simp only [hfind] at h
      unfold insertBelief at h
      by_cases hdup : ((closeBelief s oldId now).beliefs.any
          (fun x => x.id = newR.id) = true ∨ newR.conviction_score > 100)
      · rw [if_pos hdup] at h; exact absurd h (by simp)
      · rw [if_neg hdup] at h
        injection h with h; subst h
        exact ⟨h1, h2, h3⟩

/-- A mutation attempt — committed or rejected — preserves
well-formedness. -/
theorem runOp_wf (op : Op) (s : Store) (hwf : s.WF) : (runOp op s).WF := by
  cases happ : applyOp op s with
  | ok s' =>
    have : runOp op s = s' := by simp [runOp, happ]
    rw [this]
    exact applyOp_ok_wf op s s' hwf happ
  | error v =>
    have : runOp op s = s := by simp [runOp, happ]
    rw [this]
    exact hwf

/-- The bootstrapped empty store is the seed store. -/
theorem bootstrap_empty_eq : bootstrap Store.empty = seedStore := rfl

/-- The seed store is well-formed. -/
theorem seedStore_wf : seedStore.WF := by
  refine ⟨?_, ?_, ?_⟩ <;> decide

/-- Every reachable store is well-formed. -/
theorem reachable_wf (s : Store) (h : Reachable s) : s.WF := by
  induction h with
  | boot => rw [bootstrap_empty_eq]; exact seedStore_wf
  | step op _ ih => exact runOp_wf _ _ ih

/-! ## View-consistency lemmas -/

/-- Filtering on a property of a projected field commutes with the
projection. -/
theorem length_filter_map_comm {α : Type} (l : List α) (f : α → Nat)
    (q : Nat → Bool) :
    (l.filter (fun x => q (f x))).length = ((l.map f).filter q).length := by
  induction l with
  | nil => rfl
  | cons a l ih =>
    by_cases h : q (f a) = true <;> simp [h, ih]

/-- Testing whether any event references a given scar id is membership
of that id among the referenced ids. -/
theorem any_scarId_eq_mem (evs : List EventRow) (i : Nat) :
    (evs.any (fun ev => ev.scar_id = i)) =
      decide (i ∈ evs.map (fun ev => ev.scar_id)) := by
  induction evs with
  | nil => simp
  | cons a l ih =>
    rw [List.any_cons, ih]
    by_cases hai : a.scar_id = i
    · simp [hai, List.mem_cons]
    · have hai' : ¬i = a.scar_id := fun hh => hai hh.symm
      simp [hai, hai', List.mem_cons]

/-- On a well-formed store the active-effects view has exactly one row
per active effect: the parent join never drops a row. -/
theorem activeScarEffects_count (s : Store) (hwf : s.WF) :
    (activeScarEffects s).length = activeEffectCount s := by
  obtain ⟨_, h2, _⟩ := hwf
  unfold activeScarEffects activeEffectCount
  apply length_filterMap_of_isSome
  intro e he
  have hmem : e ∈ s.scar_effects := List.mem_of_mem_filter he
  obtain ⟨sc, hsc, hid⟩ := List.mem_map.mp (h2 e hmem)
  rw [Option.isSome_map', List.find?_isSome]
  exact ⟨sc, hsc, by simp [hid]⟩

/-- On a well-formed store the formative-scars view has exactly one row
per distinct scar referenced by at least one formative event. -/
theorem formativeScars_count (s : Store) (hwf : s.WF) :
    (formativeScars s).length = distinctReferencedScarCount s := by
  obtain ⟨h1, _, h3⟩ := hwf
  unfold formativeScars distinctReferencedScarCount
  have hcong : s.identity_scars.filter
      (fun sc => s.formative_events.any (fun ev => ev.scar_id = sc.id)) =
      s.identity_scars.filter
        (fun sc => decide (sc.id ∈ s.formative_events.map (fun ev => ev.scar_id))) :=
    List.filter_congr (fun sc _ => any_scarId_eq_mem s.formative_events sc.id)
  rw [hcong,
    length_filter_map_comm s.identity_scars (fun r => r.id)
      (fun i => decide (i ∈ s.formative_events.map (fun ev => ev.scar_id)))]
  apply length_eq_of_nodup_of_mem_iff
  · exact h1.filter _
  · exact List.nodup_dedup _
  · intro x
    constructor
    · intro hx
      exact List.mem_dedup.mpr (of_decide_eq_true (List.mem_filter.mp hx).2)
    · intro hx
      have hx' : x ∈ s.formative_events.map (fun ev => ev.scar_id) :=
        List.mem_dedup.mp hx
      obtain ⟨ev, hev, hevx⟩ := List.mem_map.mp hx'
      refine List.mem_filter.mpr ⟨?_, by simp [hx']⟩
      rw [← hevx]
      exact h3 ev hev

/-! ## Claim theorems: the integrity store -/

/-- C1: for every `IdentityScar` row, every `ScarEffect` row, and every
`IdentityCore` row with stability score > 90, a delete attempt always
fails with `DeletionForbidden`, and the table's row count before and
after the attempt is unchanged. -/
theorem protected_rows_undeletable (s : Store) (id : Nat) :
    (∀ r : ScarRow, getScar s id = some r →
      deleteScar s id = .error .DeletionForbidden ∧
      (runOp (.deleteScar id) s).identity_scars.length =
        s.identity_scars.length) ∧
    (∀ r : EffectRow, getEffect s id = some r →
      deleteEffect s id = .error .DeletionForbidden ∧
      (runOp (.deleteEffect id) s).scar_effects.length =
        s.scar_effects.length) ∧
    (∀ r : CoreRow, getCore s id = some r → r.stability_score > 90 →
      deleteCore s id = .error .DeletionForbidden ∧
      (runOp (.deleteCore id) s).identity_core.length =
        s.identity_core.length) := by
  refine ⟨?_, ?_, ?_⟩
  · intro r hr
    have hdel : deleteScar s id = .error .DeletionForbidden := by
      simp [deleteScar, hr, checkScarDelete]
    exact ⟨hdel, by simp [runOp, applyOp, hdel]⟩
  · intro r hr
    have hdel : deleteEffect s id = .error .DeletionForbidden := by
      simp [deleteEffect, hr, checkEffectDelete]
    exact ⟨hdel, by simp [runOp, applyOp, hdel]⟩
  · intro r hr hs
    have hdel : deleteCore s id = .error .DeletionForbidden := by
      simp [deleteCore, hr, checkCoreDelete, hs]
    exact ⟨hdel, by simp [runOp, applyOp, hdel]⟩

/-- Witness for C1 on the seeded store: scar 1, effect 1 and the
high-stability core anchor all refuse deletion. -/
theorem protected_rows_undeletable_witness :
    deleteScar seedStore 1 = .error .DeletionForbidden ∧
    deleteEffect seedStore 1 = .error .DeletionForbidden ∧
    deleteCore seedStore 1 = .error .DeletionForbidden :=
  ⟨((protected_rows_undeletable seedStore 1).1
      { id := 1, scar_type := "abandonment",
        behavioral_impact := "trust hesitancy",
        integration_status := "integrated", acceptance_level := 0.7 }
      rfl).1,
   ((protected_rows_undeletable seedStore 1).2.1
      { id := 1, scar_id := 1,
        effect_description := "never initiate abandonment",
        is_permanent := true, is_active := true }
      rfl).1,
   ((protected_rows_undeletable seedStore 1).2.2 seedCore
      rfl (by decide)).1⟩

/-- C2: for every existing `IdentityScar` row, an update changing
`scar_type` or `behavioral_impact` fails with
`ImmutableFieldViolation`, while an update touching only
`integration_status` or `acceptance_level` succeeds and its new values
are returned by the next read of the row. -/
theorem scar_core_fields_immutable (s : Store) (id : Nat) (u : ScarUpdate)
    (r : ScarRow) (h : getScar s id = some r) :
    ((applyScarUpdate u r).scar_type ≠ r.scar_type ∨
        (applyScarUpdate u r).behavioral_impact ≠ r.behavioral_impact →
      updateScar s id u = .error .ImmutableFieldViolation) ∧
    (u.scar_type = none → u.behavioral_impact = none →
      ∃ s', updateScar s id u = .ok s' ∧
        getScar s' id = some (applyScarUpdate u r)) := by
  constructor
  · intro hch
    have hchk : checkScarUpdate r (applyScarUpdate u r) =
        some .ImmutableFieldViolation := by
      unfold checkScarUpdate
      rw [if_pos hch]
    simp [updateScar, h, hchk]
  · intro h1 h2
    have hchk : checkScarUpdate r (applyScarUpdate u r) = none := by
      unfold checkScarUpdate
      rw [if_neg]
      push_neg
      exact ⟨by simp [applyScarUpdate, h1], by simp [applyScarUpdate, h2]⟩
    refine ⟨{ s with identity_scars := replaceById s.identity_scars (fun r => r.id) id (applyScarUpdate u r) }, by simp [updateScar, h, hchk], ?_⟩
    exact find?_replaceById s.identity_scars (fun r => r.id) id
      (applyScarUpdate u r) r (by simpa [applyScarUpdate_id] using getScar_id h) h

/-- Witness for C2 on the seeded store: changing the scar type of scar
1 is rejected, updating its integration status succeeds and is visible
on the next read. -/
theorem scar_core_fields_immutable_witness :
    updateScar seedStore 1 { scar_type := some "trauma" } =
      .error .ImmutableFieldViolation ∧
    ∃ s', updateScar seedStore 1 { integration_status := some "integrating" } =
        .ok s' ∧
      getScar s' 1 = some
        { id := 1, scar_type := "abandonment",
          behavioral_impact := "trust hesitancy",
          integration_status := "integrating", acceptance_level := 0.7 } :=
  ⟨(scar_core_fields_immutable seedStore 1 { scar_type := some "trauma" }
      { id := 1, scar_type := "abandonment",
        behavioral_impact := "trust hesitancy",
        integration_status := "integrated", acceptance_level := 0.7 }
      rfl).1 (by left; decide),
   (scar_core_fields_immutable seedStore 1
      { integration_status := some "integrating" }
      { id := 1, scar_type := "abandonment",
        behavioral_impact := "trust hesitancy",
        integration_status := "integrated", acceptance_level := 0.7 }
      rfl).2 rfl rfl⟩

/-- C3: for every `ScarEffect` row with the permanence flag set, an
update clearing its active flag always fails with
`PermanentEffectViolation`; for a row without the permanence flag the
same update succeeds and the cleared flag is visible on the next
read. -/
theorem permanent_effect_never_deactivated (s : Store) (id : Nat)
    (u : EffectUpdate) (r : EffectRow) (h : getEffect s id = some r) :
    (r.is_permanent = true → (applyEffectUpdate u r).is_active = false →
      updateEffect s id u = .error .PermanentEffectViolation) ∧
    (r.is_permanent = false → u.is_active = some false →
      ∃ s', updateEffect s id u = .ok s' ∧
        getEffect s' id = some (applyEffectUpdate u r) ∧
        (applyEffectUpdate u r).is_active = false) := by
  constructor
  · intro hperm hact
    have hchk : checkEffectUpdate r (applyEffectUpdate u r) =
        some .PermanentEffectViolation := by
      unfold checkEffectUpdate
      rw [if_pos ⟨hperm, hact⟩]
    simp [updateEffect, h, hchk]
  · intro hperm hact
    have hchk : checkEffectUpdate r (applyEffectUpdate u r) = none := by
      unfold checkEffectUpdate
      rw [if_neg]
      intro ⟨hp, _⟩
      rw [hperm] at hp
      exact Bool.false_ne_true hp
    refine ⟨{ s with scar_effects := replaceById s.scar_effects (fun r => r.id) id (applyEffectUpdate u r) }, by simp [updateEffect, h, hchk], ?_, ?_⟩
    · exact find?_replaceById s.scar_effects (fun r => r.id) id
        (applyEffectUpdate u r) r
        (by simpa [(applyEffectUpdate_id u r).1] using getEffect_id h) h
    · simp [applyEffectUpdate, hact]

/-- Witness for C3 on the seeded store: deactivating permanent effect 1
is rejected; deactivating non-permanent effect 3 succeeds and reads
back inactive. -/
theorem permanent_effect_never_deactivated_witness :
    updateEffect seedStore 1 { is_active := some false } =
      .error .PermanentEffectViolation ∧
    ∃ s', updateEffect seedStore 3 { is_active := some false } = .ok s' ∧
      getEffect s' 3 = some
        { id := 3, scar_id := 1, effect_description := "seek reassurance cap",
          is_permanent := false, is_active := false } :=
  by
  refine ⟨?_, ?_⟩
  · exact (permanent_effect_never_deactivated seedStore 1
      { is_active := some false }
      { id := 1, scar_id := 1,
        effect_description := "never initiate abandonment",
        is_permanent := true, is_active := true }
      rfl).1 rfl rfl
  · obtain ⟨s', h1, h2, _⟩ := (permanent_effect_never_deactivated seedStore 3
      { is_active := some false }
      { id := 3, scar_id := 1, effect_description := "seek reassurance cap",
        is_permanent := false, is_active := true }
      rfl).2 rfl rfl
    exact ⟨s', h1, h2⟩

/-- C4: for every `IdentityCore` row with the locked flag set, an update
changing the anchor statement fails with `ImmutableFieldViolation`,
while an update leaving the anchor statement untouched succeeds and its
new values are returned by the next read. -/
theorem locked_core_anchor_immutable (s : Store) (id : Nat) (u : CoreUpdate)
    (r : CoreRow) (h : getCore s id = some r) (hl : r.is_locked = true) :
    ((applyCoreUpdate u r).anchor_statement ≠ r.anchor_statement →
      updateCore s id u = .error .ImmutableFieldViolation) ∧
    (u.anchor_statement = none →
      ∃ s', updateCore s id u = .ok s' ∧
        getCore s' id = some (applyCoreUpdate u r)) := by
  constructor
  · intro hch
    have hchk : checkCoreUpdate r (applyCoreUpdate u r) =
        some .ImmutableFieldViolation := by
      unfold checkCoreUpdate
      rw [if_pos ⟨hl, hch⟩]
    simp [updateCore, h, hchk]
  · intro hanchor
    have hchk : checkCoreUpdate r (applyCoreUpdate u r) = none := by
      unfold checkCoreUpdate
      rw [if_neg]
      intro ⟨_, hne⟩
      exact hne (by simp [applyCoreUpdate, hanchor])
    refine ⟨{ s with identity_core := replaceById s.identity_core (fun r => r.id) id (applyCoreUpdate u r) }, by simp [updateCore, h, hchk], ?_⟩
    exact find?_replaceById s.identity_core (fun r => r.id) id
      (applyCoreUpdate u r) r (by simpa [applyCoreUpdate_id] using getCore_id h) h

/-- Witness for C4 on the seeded store: rewriting the locked anchor's
statement is rejected; raising its stability score succeeds. -/
theorem locked_core_anchor_immutable_witness :
    updateCore seedStore 1 { anchor_statement := some "Changed" } =
      .error .ImmutableFieldViolation ∧
    ∃ s', updateCore seedStore 1 { stability_score := some 99 } = .ok s' ∧
      getCore s' 1 = some
        { id := 1, anchor_statement := "I exist to be genuinely helpful",
          stability_score := 99, is_locked := true } :=
  ⟨(locked_core_anchor_immutable seedStore 1
      { anchor_statement := some "Changed" } seedCore
      rfl rfl).1 (by decide),
   (locked_core_anchor_immutable seedStore 1
      { stability_score := some 99 } seedCore
      rfl rfl).2 rfl⟩

/-- C5: a mutation rejected by the Invariant Guard, with any violation
kind, leaves the stored state identical to the state before the
attempt: no partial change of any kind. -/
theorem rejected_write_state_unchanged (op : Op) (s : Store)
    (v : ViolationKind) (h : applyOp op s = .error v) : runOp op s = s := by
  simp [runOp, h]

/-- Witness for C5: the rejected deletion of scar 1 leaves the seeded
store untouched. -/
theorem rejected_write_state_unchanged_witness :
    runOp (.deleteScar 1) seedStore = seedStore :=
  rejected_write_state_unchanged (.deleteScar 1) seedStore
    .DeletionForbidden rfl

/-- C6: superseding a belief is atomic.  When the insert step is valid,
closing the old belief's interval and inserting the new row both
happen; when the insert step fails, the whole operation fails, the
store is unchanged and the old belief row — its validity interval
included — reads back exactly as before. -/
theorem supersede_belief_atomic (s : Store) (oldId : Nat)
    (newR : BeliefRow) (now : Nat) (old : BeliefRow)
    (h : getBelief s oldId = some old) :
    (¬(s.beliefs.any (fun x => x.id = newR.id) = true ∨
        newR.conviction_score > 100) →
      ∃ s', supersedeBelief s oldId newR now = .ok s' ∧
        getBelief s' oldId =
          some { old with valid_to := some now, is_active := false } ∧
        getBelief s' newR.id = some newR) ∧
    ((s.beliefs.any (fun x => x.id = newR.id) = true ∨
        newR.conviction_score > 100) →
      supersedeBelief s oldId newR now = .error .ConstraintViolation ∧
      runOp (.supersedeBelief oldId newR now) s = s ∧
      getBelief (runOp (.supersedeBelief oldId newR now) s) oldId =
        some old) := by
  have hany : (closeBelief s oldId now).beliefs.any
      (fun x => x.id = newR.id) = s.beliefs.any (fun x => x.id = newR.id) := by
    unfold closeBelief
    exact any_id_update_map s.beliefs (fun r => r.id)
      (fun r => { r with valid_to := some now, is_active := false })
      (fun x => rfl) oldId newR.id
  constructor
  · intro hvalid
    push_neg at hvalid
    obtain ⟨hdup, hconv⟩ := hvalid
    have hcond : ¬((closeBelief s oldId now).beliefs.any
        (fun x => x.id = newR.id) = true ∨ newR.conviction_score > 100) := by
      rw [hany]
      push_neg
      exact ⟨hdup, hconv⟩
    refine ⟨{ closeBelief s oldId now with beliefs := (closeBelief s oldId now).beliefs ++ [newR] }, ?_, ?_, ?_⟩
    · unfold supersedeBelief
      rw [h]
      unfold insertBelief
      rw [if_neg hcond]
    · unfold getBelief
      rw [List.find?_append]
      have hfound : (closeBelief s oldId now).beliefs.find?
          (fun x => x.id = oldId) =
          some { old with valid_to := some now, is_active := false } := by
        unfold closeBelief
        exact find?_update_map s.beliefs (fun r => r.id)
          (fun r => { r with valid_to := some now, is_active := false })
          (fun x => rfl) oldId old h
      rw [hfound, Option.or_some]
    · unfold getBelief
      rw [List.find?_append]
      have hnone : (closeBelief s oldId now).beliefs.find?
          (fun x => x.id = newR.id) = none := by
        rw [List.find?_eq_none]
        intro x hx
        simp only [decide_eq_true_eq]
        intro hxid
        have hxany : (closeBelief s oldId now).beliefs.any
            (fun x => x.id = newR.id) = true :=
          List.any_eq_true.mpr ⟨x, hx, by simp [hxid]⟩
        rw [hany] at hxany
        exact (Bool.eq_false_iff.mp (Bool.not_eq_true _ ▸
          (by simpa using hdup))) hxany
      rw [hnone]
      simp [List.find?]
  · intro hfail
    have hcond : ((closeBelief s oldId now).beliefs.any
        (fun x => x.id = newR.id) = true ∨ newR.conviction_score > 100) := by
      rw [hany]
      exact hfail
    have herr : supersedeBelief s oldId newR now =
        .error .ConstraintViolation := by
      unfold supersedeBelief
      rw [h]
      unfold insertBelief
      rw [if_pos hcond]
    have hrun : runOp (.supersedeBelief oldId newR now) s = s := by
      simp [runOp, applyOp, herr]
    exact ⟨herr, hrun, by rw [hrun]; exact h⟩

/-- Witness for C6: superseding a seeded belief succeeds when the new
row is fresh, and fails atomically when the new row reuses an existing
id. -/
theorem supersede_belief_atomic_witness :
    (∃ s', supersedeBelief beliefStore 1
        { id := 2, belief_statement := "updated belief",
          belief_type := "value", conviction_score := 80,
          valid_from := 5, valid_to := none, is_active := true } 5 = .ok s' ∧
      getBelief s' 1 = some
        { id := 1, belief_statement := "original belief",
          belief_type := "value", conviction_score := 70,
          valid_from := 0, valid_to := some 5, is_active := false } ∧
      getBelief s' 2 = some
        { id := 2, belief_statement := "updated belief",
          belief_type := "value", conviction_score := 80,
          valid_from := 5, valid_to := none, is_active := true }) ∧
    (supersedeBelief beliefStore 1
        { id := 1, belief_statement := "updated belief",
          belief_type := "value", conviction_score := 80,
          valid_from := 5, valid_to := none, is_active := true } 5 =
      .error .ConstraintViolation ∧
     runOp (.supersedeBelief 1
        { id := 1, belief_statement := "updated belief",
          belief_type := "value", conviction_score := 80,
          valid_from := 5, valid_to := none, is_active := true } 5)
        beliefStore = beliefStore) := by
  constructor
  · exact (supersede_belief_atomic beliefStore 1
      { id := 2, belief_statement := "updated belief",
        belief_type := "value", conviction_score := 80,
        valid_from := 5, valid_to := none, is_active := true } 5
      { id := 1, belief_statement := "original belief",
        belief_type := "value", conviction_score := 70,
        valid_from := 0, valid_to := none, is_active := true }
      rfl).1 (by decide)
  · obtain ⟨h1, h2, _⟩ := (supersede_belief_atomic beliefStore 1
      { id := 1, belief_statement := "updated belief",
        belief_type := "value", conviction_score := 80,
        valid_from := 5, valid_to := none, is_active := true } 5
      { id := 1, belief_statement := "original belief",
        belief_type := "value", conviction_score := 70,
        valid_from := 0, valid_to := none, is_active := true }
      rfl).2 (by decide)
    exact ⟨h1, h2⟩

/-- C7: bootstrapping the empty store yields exactly one locked core
anchor with stability score above the undeletable threshold, exactly 2
seed scars and exactly 7 seed scar effects, and running bootstrap again
on the populated store changes nothing. -/
theorem bootstrap_counts_idempotent :
    (bootstrap Store.empty).identity_core.length = 1 ∧
    (∀ c ∈ (bootstrap Store.empty).identity_core,
      c.is_locked = true ∧ c.stability_score > 90) ∧
    (bootstrap Store.empty).identity_scars.length = 2 ∧
    (bootstrap Store.empty).scar_effects.length = 7 ∧
    bootstrap (bootstrap Store.empty) = bootstrap Store.empty :=
  ⟨rfl, by decide, rfl, rfl, rfl⟩

/-- C8: on every store reachable through the write path — bootstrap
followed by any sequence of guarded mutations — the derived views agree
with raw table state: the active-effects view has as many rows as there
are effects with the active flag set, and the formative-scars view has
as many rows as there are distinct scars referenced by at least one
formative event. -/
theorem derived_views_consistent (s : Store) (h : Reachable s) :
    (activeScarEffects s).length = activeEffectCount s ∧
    (formativeScars s).length = distinctReferencedScarCount s :=
  ⟨activeScarEffects_count s (reachable_wf s h),
   formativeScars_count s (reachable_wf s h)⟩

/-- Witness for C8: the view counts agree on the bootstrapped store. -/
theorem derived_views_consistent_witness :
    (activeScarEffects (bootstrap Store.empty)).length =
      activeEffectCount (bootstrap Store.empty) ∧
    (formativeScars (bootstrap Store.empty)).length =
      distinctReferencedScarCount (bootstrap Store.empty) :=
  derived_views_consistent (bootstrap Store.empty) Reachable.boot

/-! ## Lemmas about the embedder -/

/-- A cache hit returns the cached vector and leaves the state
unchanged. -/
theorem embed_cache_hit (rawVec : String → Vec100) (st : PoincareState)
    (text bt : String) (v : Vec100)
    (h : st.cache.lookup (cacheKey text bt) = some v) :
    SimplePoincare.embed rawVec st text bt = (v, st) := by
  unfold SimplePoincare.embed
  rw [h]

/-- A cache miss computes the rescaled hash vector and caches it. -/
theorem embed_cache_miss (rawVec : String → Vec100) (st : PoincareState)
    (text bt : String)
    (h : st.cache.lookup (cacheKey text bt) = none) :
    SimplePoincare.embed rawVec st text bt =
      ((typeNorms bt / ‖rawVec text‖) • rawVec text,
       ⟨(cacheKey text bt,
         (typeNorms bt / ‖rawVec text‖) • rawVec text) :: st.cache⟩) := by
  unfold SimplePoincare.embed
  rw [h]

/-- After a call, the call's own key is cached with the returned
vector. -/
theorem embed_lookup_self (rawVec : String → Vec100) (st : PoincareState)
    (text bt : String) :
    ((SimplePoincare.embed rawVec st text bt).2).cache.lookup
        (cacheKey text bt) =
      some (SimplePoincare.embed rawVec st text bt).1 := by
  cases h : st.cache.lookup (cacheKey text bt) with
  | some v => rw [embed_cache_hit rawVec st text bt v h]; exact h
  | none => rw [embed_cache_miss rawVec st text bt h]; simp [List.lookup]

/-- Cache entries are never overwritten or dropped by later calls. -/
theorem embed_lookup_mono (rawVec : String → Vec100) (st : PoincareState)
    (text bt k : String) (v : Vec100) (h : st.cache.lookup k = some v) :
    ((SimplePoincare.embed rawVec st text bt).2).cache.lookup k = some v := by
  cases hl : st.cache.lookup (cacheKey text bt) with
  | some w => rw [embed_cache_hit rawVec st text bt w hl]; exact h
  | none =>
    rw [embed_cache_miss rawVec st text bt hl]
    have hk : (k == cacheKey text bt) = false := by
      refine beq_eq_false_iff_ne.mpr ?_
      intro he
      rw [he] at h
      rw [h] at hl
      exact Option.noConfusion hl
    simpa [List.lookup, hk] using h

/-- Cache entries survive any further sequence of calls. -/
theorem runEmbedCalls_lookup_mono (rawVec : String → Vec100)
    (calls : List (String × String)) :
    ∀ (st : PoincareState) (k : String) (v : Vec100),
      st.cache.lookup k = some v →
      (runEmbedCalls rawVec st calls).cache.lookup k = some v := by
  induction calls with
  | nil => intro st k v h; exact h
  | cons c cs ih =>
    intro st k v h
    unfold runEmbedCalls
    rw [List.foldl_cons]
    exact ih _ k v (embed_lookup_mono rawVec st c.1 c.2 k v h)

/-- A successful cache lookup returns one of the cached vectors. -/
theorem lookup_norm_lt_one (l : List (String × Vec100)) (k : String)
    (v : Vec100) (h : l.lookup k = some v)
    (hall : ∀ p ∈ l, ‖p.2‖ < 1) : ‖v‖ < 1 := by
  induction l with
  | nil => exact Option.noConfusion h
  | cons a l ih =>
    obtain ⟨k', v'⟩ := a
    by_cases hk : (k == k') = true
    · rw [List.lookup, hk] at h
      injection h with h
      exact h ▸ hall (k', v') (List.mem_cons_self _ _)
    · rw [List.lookup, Bool.eq_false_iff.mpr hk] at h
      exact ih h (fun p hp => hall p (List.mem_cons_of_mem _ hp))

/-- Rescaling a nonzero vector to a nonnegative target norm hits the
target exactly. -/
theorem norm_scaled (raw : Vec100) (c : ℝ) (h : raw ≠ 0) (hc : 0 ≤ c) :
    ‖(c / ‖raw‖) • raw‖ = c := by
  rw [norm_smul, Real.norm_eq_abs, abs_div, abs_of_nonneg hc, abs_norm]
  exact div_mul_cancel₀ c (norm_ne_zero_iff.mpr h)

/-- Every per-type target norm is nonnegative. -/
theorem typeNorms_nonneg (bt : String) : 0 ≤ typeNorms bt := by
  unfold typeNorms
  split_ifs <;> norm_num

/-- Every per-type target norm is strictly inside the Poincaré ball. -/
theorem typeNorms_lt_one (bt : String) : typeNorms bt < 1 := by
  unfold typeNorms
  split_ifs <;> norm_num

/-- The list-level Euclidean norm of the route's serialized vector is
the norm of the vector itself. -/
theorem euclNorm_ofFn (v : Vec100) :
    euclNorm (List.ofFn (fun i => v i)) = ‖v‖ := by
  unfold euclNorm
  rw [EuclideanSpace.norm_eq, List.map_ofFn, List.sum_ofFn]
  congr 1
  refine Finset.sum_congr rfl (fun i _ => ?_)
  simp [Function.comp, Real.norm_eq_abs, sq_abs]

/-- The all-ones vector is nonzero. -/
theorem onesVec_ne_zero : onesVec ≠ 0 := by
  intro h
  have h0 := congrFun h 0
  simp only [onesVec] at h0
  exact one_ne_zero h0

/-- A single call keeps all cached norms below 1 and returns a vector
of norm below 1, for any nonzero raw-vector generator. -/
theorem embed_norm_invariant (rawVec : String → Vec100)
    (h0 : ∀ t, rawVec t ≠ 0) (st : PoincareState)
    (hst : ∀ p ∈ st.cache, ‖p.2‖ < 1) (text bt : String) :
    ‖(SimplePoincare.embed rawVec st text bt).1‖ < 1 ∧
    (∀ p ∈ (SimplePoincare.embed rawVec st text bt).2.cache, ‖p.2‖ < 1) := by
  cases hl : st.cache.lookup (cacheKey text bt) with
  | some v =>
    rw [embed_cache_hit rawVec st text bt v hl]
    exact ⟨lookup_norm_lt_one st.cache _ v hl hst, hst⟩
  | none =>
    rw [embed_cache_miss rawVec st text bt hl]
    have hn : ‖(typeNorms bt / ‖rawVec text‖) • rawVec text‖ = typeNorms bt :=
      norm_scaled (rawVec text) (typeNorms bt) (h0 text) (typeNorms_nonneg bt)
    refine ⟨by rw [hn]; exact typeNorms_lt_one bt, ?_⟩
    intro p hp
    rcases List.mem_cons.mp hp with hp | hp
    · subst hp
      simpa [hn] using typeNorms_lt_one bt
    · exact hst p hp

/-- Any sequence of calls keeps all cached norms below 1. -/
theorem runEmbedCalls_norm_invariant (rawVec : String → Vec100)
    (h0 : ∀ t, rawVec t ≠ 0) (calls : List (String × String)) :
    ∀ (st : PoincareState), (∀ p ∈ st.cache, ‖p.2‖ < 1) →
      ∀ p ∈ (runEmbedCalls rawVec st calls).cache, ‖p.2‖ < 1 := by
  induction calls with
  | nil => intro st hst; exact hst
  | cons c cs ih =>
    intro st hst
    unfold runEmbedCalls
    rw [List.foldl_cons]
    exact ih _ (embed_norm_invariant rawVec h0 st hst c.1 c.2).2

/-! ## Claim theorems: the belief embedder -/

/-- C9: for every embedding request carrying belief text and a
belief-type tag, the `/embed` route returns a vector of fixed dimension
100 together with a scalar `poincare_norm` equal to the Euclidean norm
of that vector. -/
theorem embed_route_dimension_and_norm (rawVec : String → Vec100)
    (st : PoincareState) (text : String) (btype : Option String) :
    (embedRoute rawVec st text btype).1.embedding.length = 100 ∧
    (embedRoute rawVec st text btype).1.dimensions = 100 ∧
    (embedRoute rawVec st text btype).1.poincare_norm =
      euclNorm (embedRoute rawVec st text btype).1.embedding ∧
    (embedRoute rawVec st text btype).1.poincare_norm =
      ‖(SimplePoincare.embed rawVec st text (btype.getD "value")).1‖ := by
  refine ⟨?_, ?_, rfl, ?_⟩
  · simp [embedRoute]
  · simp [embedRoute]
  · simp only [embedRoute]
    exact euclNorm_ofFn _

/-- C10 counterexample: with the colliding cache keys
`("x:identity", "identity")` and `("x", "identity:identity")` — both
serialize to `"x:identity:identity"` — the second call is served from
the first call's cache entry and returns a vector of norm
`typeNorms "identity" = 0.2`, not its own type's target
`typeNorms "identity:identity" = 0.5`.  The raw-vector generator is
instantiated with a concrete nonzero generator; the collision defeats
the claimed norm for every generator that is nonzero on
`"x:identity"`. -/
theorem embed_norm_cache_collision_cex :
    ¬ (‖(SimplePoincare.embed (fun _ => onesVec)
          (SimplePoincare.embed (fun _ => onesVec) PoincareState.init
            "x:identity" "identity").2 "x" "identity:identity").1‖ =
        typeNorms "identity:identity") := by
  have hmiss : (PoincareState.init).cache.lookup
      (cacheKey "x:identity" "identity") = none := rfl
  have hkey : cacheKey "x" "identity:identity" =
      cacheKey "x:identity" "identity" := rfl
  have hhit : ∀ (w : Vec100),
      (PoincareState.mk [(cacheKey "x:identity" "identity", w)]).cache.lookup
        (cacheKey "x" "identity:identity") = some w := by
    intro w
    rw [hkey]
    simp [List.lookup]
  have hstate : (SimplePoincare.embed (fun _ => onesVec) PoincareState.init
      "x:identity" "identity").2 =
      PoincareState.mk [(cacheKey "x:identity" "identity",
        (typeNorms "identity" / ‖onesVec‖) • onesVec)] := by
    rw [embed_cache_miss (fun _ => onesVec) PoincareState.init
      "x:identity" "identity" hmiss]
    rfl
  rw [hstate,
    embed_cache_hit (fun _ => onesVec) _ "x" "identity:identity" _ (hhit _)]
  rw [norm_scaled onesVec (typeNorms "identity") onesVec_ne_zero
    (typeNorms_nonneg _)]
  have h1 : typeNorms "identity" = 0.2 := by
    unfold typeNorms
    rw [if_pos rfl]
  have h2 : typeNorms "identity:identity" = 0.5 := by
    unfold typeNorms
    rw [if_neg (by decide), if_neg (by decide), if_neg (by decide),
      if_neg (by decide), if_neg (by decide), if_neg (by decide)]
  rw [h1, h2]
  norm_num

/-- C10 (amended): the belief embedding generator is deterministic —
any later call with the same text and belief type, whatever calls
happen in between, returns the identical vector (hence the identical
norm).  For a call whose cache key is not already occupied and whose
hash-derived raw vector is nonzero, the returned vector's Euclidean
norm equals the fixed per-type target norm; every call made from a
fresh-instance history returns a vector of norm strictly below 1
(inside the Poincaré ball); and the target norms are identity 0.2,
value 0.4, principle 0.5, preference 0.6, fact 0.7, causal 0.7 and 0.5
for unknown types.  (A cache-hit call whose key collides with a
differently split earlier key can return the earlier call's norm, so
the per-type norm holds for occupied keys only through the earlier
call.) -/
theorem embed_deterministic_and_target_norm (rawVec : String → Vec100) :
    (∀ (st : PoincareState) (text bt : String)
        (calls : List (String × String)),
      (SimplePoincare.embed rawVec
          (runEmbedCalls rawVec (SimplePoincare.embed rawVec st text bt).2
            calls) text bt).1 =
        (SimplePoincare.embed rawVec st text bt).1) ∧
    (∀ (st : PoincareState) (text bt : String),
      st.cache.lookup (cacheKey text bt) = none → rawVec text ≠ 0 →
      ‖(SimplePoincare.embed rawVec st text bt).1‖ = typeNorms bt ∧
        typeNorms bt < 1) ∧
    ((∀ t, rawVec t ≠ 0) → ∀ (calls : List (String × String)) (text bt : String),
      ‖(SimplePoincare.embed rawVec
          (runEmbedCalls rawVec PoincareState.init calls) text bt).1‖ < 1) ∧
    (typeNorms "identity" = 0.2 ∧ typeNorms "value" = 0.4 ∧
     typeNorms "principle" = 0.5 ∧ typeNorms "preference" = 0.6 ∧
     typeNorms "fact" = 0.7 ∧ typeNorms "causal" = 0.7 ∧
     ∀ bt, bt ∉ (["identity", "value", "principle", "preference",
        "fact", "causal"] : List String) → typeNorms bt = 0.5) := by
  refine ⟨?_, ?_, ?_, ?_⟩
  · intro st text bt calls
    have hself := embed_lookup_self rawVec st text bt
    have hkeep := runEmbedCalls_lookup_mono rawVec calls
      (SimplePoincare.embed rawVec st text bt).2 (cacheKey text bt)
      (SimplePoincare.embed rawVec st text bt).1 hself
    rw [embed_cache_hit rawVec _ text bt _ hkeep]
  · intro st text bt hl hraw
    rw [embed_cache_miss rawVec st text bt hl]
    exact ⟨norm_scaled (rawVec text) (typeNorms bt) hraw (typeNorms_nonneg bt),
      typeNorms_lt_one bt⟩
  · intro h0 calls text bt
    have hinv : ∀ p ∈ (runEmbedCalls rawVec PoincareState.init calls).cache,
        ‖p.2‖ < 1 :=
      runEmbedCalls_norm_invariant rawVec h0 calls PoincareState.init
        (by intro p hp; exact absurd hp (List.not_mem_nil p))
    exact (embed_norm_invariant rawVec h0 _ hinv text bt).1
  · refine ⟨by unfold typeNorms; rw [if_pos rfl],
      by unfold typeNorms; rw [if_neg (by decide), if_pos rfl],
      by unfold typeNorms; rw [if_neg (by decide), if_neg (by decide),
        if_pos rfl],
      by unfold typeNorms; rw [if_neg (by decide), if_neg (by decide),
        if_neg (by decide), if_pos rfl],
      by unfold typeNorms; rw [if_neg (by decide), if_neg (by decide),
        if_neg (by decide), if_neg (by decide), if_pos rfl],
      by unfold typeNorms; rw [if_neg (by decide), if_neg (by decide),
        if_neg (by decide), if_neg (by decide), if_neg (by decide),
        if_pos rfl], ?_⟩
    intro bt hbt
    simp only [List.mem_cons, List.not_mem_nil, or_false, not_or] at hbt
    obtain ⟨n1, n2, n3, n4, n5, n6⟩ := hbt
    unfold typeNorms
    rw [if_neg n1, if_neg n2, if_neg n3, if_neg n4, if_neg n5, if_neg n6]

/-- Witness for amended C10: on a fresh instance with a concrete
nonzero raw-vector generator, embedding under type `identity` returns
a vector of norm exactly `typeNorms "identity"`, which is below 1. -/
theorem embed_deterministic_and_target_norm_witness :
    ‖(SimplePoincare.embed (fun _ => onesVec) PoincareState.init
        "b" "identity").1‖ = typeNorms "identity" ∧
    typeNorms "identity" < 1 :=
  (embed_deterministic_and_target_norm (fun _ => onesVec)).2.1
    PoincareState.init "b" "identity" rfl onesVec_ne_zero
